import Mathlib

/-!
Verification development for the envelope-encryption core of the repository
(source file with exports: getMasterKey, generateDataKey, wrapDataKey,
unwrapDataKey, encrypt, decrypt, getOrCreateUserDataKey, reWrapDataKey).

Shallow embedding conventions:

* A Node `Buffer` is a `List Nat` of symbolic bytes.  Bytes are modelled as
  unbounded naturals so that the platform AEAD primitive (`createCipheriv` /
  `createDecipheriv` with "aes-256-gcm") can be modelled as an *ideal*
  authenticated cipher: the 16-slot authentication tag determines the
  (key, nonce, ciphertext) triple exactly, which is the idealisation under
  which the spec states its tag-verification properties.
* `randomBytes(n)` is modelled by passing the drawn random bytes as an
  explicit argument to each operation that draws them.
* `process.env` is modelled by an explicit `Env` value passed to every
  exported operation (functions that never read it simply ignore it, exactly
  as in the source).
* Base64 transport (`Buffer.from(s, "base64")` / `buf.toString("base64")`)
  is modelled by a lossless symbolic codec: encoding is injective, decoding
  is total and lenient (ignores characters it does not understand), mirroring
  Node's lenient base64 decoder which never throws.
* Thrown JS exceptions become `Except CryptoError` results; the constructors
  follow the spec's error taxonomy, with `invalidKeyLength` standing for the
  RangeError thrown by cipher construction on a wrong-length key (classified
  by the spec under `DecryptionError` for the decrypt path).
-/

namespace Recall

/-! ## Fuelled digit expansions (kernel-reducible stand-ins for Nat.digits) -/

/-- Little-endian digits of a natural in base b, with explicit fuel so that
the definition is structurally recursive and reduces in the kernel. -/
def digitsF (b : Nat) : Nat → Nat → List Nat
  | _, 0 => []
  | 0, _ + 1 => []
  | f + 1, n + 1 => ((n + 1) % b) :: digitsF b f ((n + 1) / b)

theorem digitsF_eq_digits (b : Nat) (hb : 2 ≤ b) :
    ∀ f n, n ≤ f → digitsF b f n = Nat.digits b n := by
  intro f
  induction f with
  | zero =>
    intro n hn
    interval_cases n
    simp [digitsF]
  | succ f ih =>
    intro n hn
    match n with
    | 0 => simp [digitsF]
    | n + 1 =>
      have hdiv : (n + 1) / b ≤ f := by
        have h1 : (n + 1) / b ≤ (n + 1) / 2 := Nat.div_le_div_left hb (by omega)
        have h2 : (n + 1) / 2 ≤ n := by omega
        omega
      rw [digitsF, ih _ hdiv, Nat.digits_def' (by omega : 1 < b) (Nat.succ_pos n)]

/-- Little-endian base-10 digits, kernel-reducible. -/
def decDigits (n : Nat) : List Nat := digitsF 10 n n

theorem decDigits_eq (n : Nat) : decDigits n = Nat.digits 10 n :=
  digitsF_eq_digits 10 (by omega) n n le_rfl

/-- Little-endian base-2 digits, kernel-reducible. -/
def binDigits (n : Nat) : List Nat := digitsF 2 n n

theorem binDigits_eq (n : Nat) : binDigits n = Nat.digits 2 n :=
  digitsF_eq_digits 2 le_rfl n n le_rfl

theorem ofDigits_decDigits (n : Nat) : Nat.ofDigits 10 (decDigits n) = n := by
  rw [decDigits_eq, Nat.ofDigits_digits]

theorem ofDigits_binDigits (n : Nat) : Nat.ofDigits 2 (binDigits n) = n := by
  rw [binDigits_eq, Nat.ofDigits_digits]

theorem decDigits_lt_base {n d : Nat} (hd : d ∈ decDigits n) : d < 10 := by
  rw [decDigits_eq] at hd
  exact Nat.digits_lt_base (by omega) hd

theorem binDigits_lt_base {n d : Nat} (hd : d ∈ binDigits n) : d < 2 := by
  rw [binDigits_eq] at hd
  exact Nat.digits_lt_base (by omega) hd

/-! ## The symbolic base64 transport codec

Models `buf.toString("base64")` and `Buffer.from(s, "base64")`: a lossless,
injective text transport for byte strings whose decoder is total and lenient
(Node's base64 decoder never throws; characters it does not understand are
skipped).  Each symbolic byte is rendered as its little-endian decimal digits
followed by a dot. -/

/-- Character for a decimal digit value. -/
def digitChar (d : Nat) : Char := Char.ofNat (48 + d)

/-- Text rendering of one symbolic byte: little-endian decimal digits
followed by a terminating dot. -/
def byteChunk (n : Nat) : List Char := (decDigits n).map digitChar ++ ['.']

/-- Models `buf.toString("base64")`: injective text transport of a byte
string. -/
def b64encode (l : List Nat) : String := ⟨(l.map byteChunk).flatten⟩

/-- Decoder worker: walks the characters, accumulating the digits of the
current byte in reverse; a dot emits the accumulated byte, any character that
is neither a digit nor a dot is skipped (leniency). -/
def b64decodeAux : List Char → List Nat → List Nat
  | [], _ => []
  | c :: cs, cur =>
    if c = '.' then Nat.ofDigits 10 cur.reverse :: b64decodeAux cs []
    else if c.isDigit then b64decodeAux cs ((c.toNat - 48) :: cur)
    else b64decodeAux cs cur

/-- Models `Buffer.from(s, "base64")`: total, lenient decoding of the text
transport back to a byte string. -/
def b64decode (s : String) : List Nat := b64decodeAux s.data []

theorem digitChar_toNat {d : Nat} (hd : d < 10) : (digitChar d).toNat = 48 + d := by
  interval_cases d <;> rfl

theorem digitChar_ne_dot {d : Nat} (hd : d < 10) : digitChar d ≠ '.' := by
  intro h
  have h1 : (digitChar d).toNat = 46 := by rw [h]; rfl
  rw [digitChar_toNat hd] at h1
  omega

theorem digitChar_isDigit {d : Nat} (hd : d < 10) : (digitChar d).isDigit = true := by
  interval_cases d <;> rfl

theorem b64decodeAux_digits (ds : List Nat) (hds : ∀ d ∈ ds, d < 10) :
    ∀ rest cur, b64decodeAux (ds.map digitChar ++ rest) cur
      = b64decodeAux rest (ds.reverse ++ cur) := by
  induction ds with
  | nil => intro rest cur; simp
  | cons d ds ih =>
    intro rest cur
    have hd : d < 10 := hds d (List.mem_cons_self d ds)
    have hds₂ : ∀ x ∈ ds, x < 10 := fun x hx => hds x (List.mem_cons_of_mem d hx)
    rw [List.map_cons, List.cons_append, b64decodeAux,
      if_neg (digitChar_ne_dot hd), if_pos (digitChar_isDigit hd),
      digitChar_toNat hd]
    have : 48 + d - 48 = d := by omega
    rw [this, ih hds₂]
    simp

theorem b64decodeAux_encode (l : List Nat) :
    b64decodeAux (l.map byteChunk).flatten [] = l := by
  induction l with
  | nil => rfl
  | cons n t ih =>
    rw [List.map_cons, List.flatten_cons, byteChunk, List.append_assoc,
      b64decodeAux_digits (decDigits n) (fun d hd => decDigits_lt_base hd)]
    simp [b64decodeAux, List.reverse_reverse, ofDigits_decDigits, ih]

/-- The transport codec is lossless: decoding inverts encoding. -/
theorem b64decode_encode (l : List Nat) : b64decode (b64encode l) = l :=
  b64decodeAux_encode l

theorem b64encode_injective : Function.Injective b64encode :=
  Function.LeftInverse.injective b64decode_encode

/-! ## The text codec

Models the pair `cipher.update(plaintext, "utf8")` / `buf.toString("utf8")`:
a lossless encoding of text as a byte string.  With symbolic bytes the
code-point sequence is the faithful stand-in for UTF-8 (both are injective
on text and decode back exactly). -/

/-- Models the utf8 encoding of a text value into a byte string. -/
def utf8Encode (s : String) : List Nat := s.data.map Char.toNat

/-- Models decoding a byte string back to text; total, as in Node. -/
def utf8Decode (l : List Nat) : String := ⟨l.map Char.ofNat⟩

theorem utf8Decode_encode (s : String) : utf8Decode (utf8Encode s) = s := by
  cases s with
  | mk data =>
    simp only [utf8Encode, utf8Decode, List.map_map]
    congr 1
    exact List.map_congr_left (fun c _ => Char.ofNat_toNat c) |>.trans (List.map_id data)

/-! ## The ideal AEAD primitive

Models the platform cipher (`createCipheriv` / `createDecipheriv` with
algorithm "aes-256-gcm", `update`, `final`, `getAuthTag`, `setAuthTag`).
The keystream and the tag are symbolic: the tag is a 16-slot byte string
whose first slot encodes the (key, nonce, ciphertext) triple injectively,
so tag verification succeeds exactly on the authentic triple — the
idealisation of GCM under which the spec states its properties. -/

/-- Injective encoding of a byte string into one symbolic value: each byte
contributes its binary digits plus a separator digit 2, and the digit stream
is read as one base-3 numeral. -/
def encodeList (l : List Nat) : Nat :=
  Nat.ofDigits 3 (l.map (fun n => binDigits n ++ [2])).flatten

/-- Injective encoding of the (key, nonce, ciphertext) triple. -/
def encodeTriple (key iv ct : List Nat) : Nat :=
  Nat.pair (encodeList key) (Nat.pair (encodeList iv) (encodeList ct))

/-- Symbolic keystream value for position i under (key, nonce). -/
def ks (key iv : List Nat) (i : Nat) : Nat :=
  Nat.pair (Nat.pair (encodeList key) (encodeList iv)) i

/-- Models the GCM authentication tag: a 16-byte string determined by
(key, nonce, ciphertext), injective in the triple. -/
def mkTag (key iv ct : List Nat) : List Nat :=
  encodeTriple key iv ct :: List.replicate 15 0

/-- Keystream application for encryption, starting at position i. -/
def streamEnc (key iv : List Nat) : Nat → List Nat → List Nat
  | _, [] => []
  | i, b :: bs => (b + ks key iv i) :: streamEnc key iv (i + 1) bs

/-- Keystream removal for decryption, starting at position i. -/
def streamDec (key iv : List Nat) : Nat → List Nat → List Nat
  | _, [] => []
  | i, b :: bs => (b - ks key iv i) :: streamDec key iv (i + 1) bs

theorem streamDec_streamEnc (key iv : List Nat) :
    ∀ i pt, streamDec key iv i (streamEnc key iv i pt) = pt := by
  intro i pt
  induction pt generalizing i with
  | nil => rfl
  | cons b bs ih => simp [streamEnc, streamDec, ih]

theorem streamEnc_length (key iv : List Nat) :
    ∀ i pt, (streamEnc key iv i pt).length = pt.length := by
  intro i pt
  induction pt generalizing i with
  | nil => rfl
  | cons b bs ih => simp [streamEnc, ih]

/-! Injectivity of the symbolic encodings. -/

theorem binDigits_sep_stream_lt (l : List Nat) :
    ∀ d ∈ (l.map (fun n => binDigits n ++ [2])).flatten, d < 3 := by
  intro d hd
  rw [List.mem_flatten] at hd
  obtain ⟨chunk, hchunk, hdc⟩ := hd
  rw [List.mem_map] at hchunk
  obtain ⟨n, _, rfl⟩ := hchunk
  rcases List.mem_append.1 hdc with h | h
  · exact lt_trans (binDigits_lt_base h) (by omega)
  · rw [List.mem_singleton] at h; omega

theorem binDigits_sep_stream_getLast? (l : List Nat) (hl : l ≠ []) :
    ((l.map (fun n => binDigits n ++ [2])).flatten).getLast? = some 2 := by
  induction l with
  | nil => exact absurd rfl hl
  | cons n t ih =>
    rw [List.map_cons, List.flatten_cons]
    by_cases ht : t = []
    · subst ht
      simp
    · rw [List.getLast?_append_of_ne_nil]
      · exact ih ht
      · intro hflat
        apply ht
        cases t with
        | nil => rfl
        | cons m u =>
          exfalso
          rw [List.map_cons, List.flatten_cons] at hflat
          simp at hflat

theorem sep_split {a₁ a₂ r₁ r₂ : List Nat}
    (h₁ : ∀ d ∈ a₁, d < 2) (h₂ : ∀ d ∈ a₂, d < 2)
    (h : a₁ ++ 2 :: r₁ = a₂ ++ 2 :: r₂) : a₁ = a₂ ∧ r₁ = r₂ := by
  induction a₁ generalizing a₂ with
  | nil =>
    cases a₂ with
    | nil => simpa using h
    | cons d t =>
      have hh : (2 : Nat) = d := by simpa using congrArg (·.head?) h
      have := h₂ d (List.mem_cons_self d t)
      omega
  | cons d₁ t₁ ih =>
    cases a₂ with
    | nil =>
      have hh : d₁ = 2 := by simpa using congrArg (·.head?) h
      have := h₁ d₁ (List.mem_cons_self d₁ t₁)
      omega
    | cons d₂ t₂ =>
      simp only [List.cons_append, List.cons.injEq] at h
      obtain ⟨rfl, htail⟩ := h
      have ih₂ := ih (fun d hd => h₁ d (List.mem_cons_of_mem _ hd))
        (fun d hd => h₂ d (List.mem_cons_of_mem _ hd)) htail
      exact ⟨by rw [ih₂.1], ih₂.2⟩

theorem binDigits_injective {m n : Nat} (h : binDigits m = binDigits n) : m = n := by
  have := congrArg (Nat.ofDigits 2) h
  rwa [ofDigits_binDigits, ofDigits_binDigits] at this

theorem encodeList_injective : Function.Injective encodeList := by
  intro l₁ l₂ h
  unfold encodeList at h
  have hs : (l₁.map (fun n => binDigits n ++ [2])).flatten
      = (l₂.map (fun n => binDigits n ++ [2])).flatten := by
    have hlast : ∀ l : List Nat,
        ∀ hne : (l.map (fun n => binDigits n ++ [2])).flatten ≠ [],
        ((l.map (fun n => binDigits n ++ [2])).flatten).getLast hne ≠ 0 := by
      intro l hne
      have hl : l ≠ [] := by
        intro hl0
        subst hl0
        exact hne rfl
      have h? := binDigits_sep_stream_getLast? l hl
      rw [List.getLast?_eq_getLast _ hne] at h?
      have := Option.some.inj h?
      omega
    have d₁ := Nat.digits_ofDigits 3 (by omega)
      ((l₁.map (fun n => binDigits n ++ [2])).flatten)
      (binDigits_sep_stream_lt l₁) (hlast l₁)
    have d₂ := Nat.digits_ofDigits 3 (by omega)
      ((l₂.map (fun n => binDigits n ++ [2])).flatten)
      (binDigits_sep_stream_lt l₂) (hlast l₂)
    rw [← d₁, ← d₂, h]
  clear h
  induction l₁ generalizing l₂ with
  | nil =>
    cases l₂ with
    | nil => rfl
    | cons n t => simp [List.append_ne_nil_of_right_ne_nil] at hs
  | cons n₁ t₁ ih =>
    cases l₂ with
    | nil => simp [List.append_ne_nil_of_right_ne_nil] at hs
    | cons n₂ t₂ =>
      simp only [List.map_cons, List.flatten_cons, List.append_assoc,
        List.singleton_append] at hs
      obtain ⟨hbin, hrest⟩ := sep_split
        (fun d hd => binDigits_lt_base hd) (fun d hd => binDigits_lt_base hd) hs
      rw [binDigits_injective hbin, ih hrest]

theorem encodeTriple_injective {k₁ i₁ c₁ k₂ i₂ c₂ : List Nat}
    (h : encodeTriple k₁ i₁ c₁ = encodeTriple k₂ i₂ c₂) :
    k₁ = k₂ ∧ i₁ = i₂ ∧ c₁ = c₂ := by
  unfold encodeTriple at h
  rw [Nat.pair_eq_pair] at h
  obtain ⟨hk, h₂⟩ := h
  rw [Nat.pair_eq_pair] at h₂
  exact ⟨encodeList_injective hk, encodeList_injective h₂.1,
    encodeList_injective h₂.2⟩

theorem mkTag_injective {k₁ i₁ c₁ k₂ i₂ c₂ : List Nat}
    (h : mkTag k₁ i₁ c₁ = mkTag k₂ i₂ c₂) : k₁ = k₂ ∧ i₁ = i₂ ∧ c₁ = c₂ := by
  unfold mkTag at h
  exact encodeTriple_injective (List.head_eq_of_cons_eq h)

theorem mkTag_length (key iv ct : List Nat) : (mkTag key iv ct).length = 16 := by
  simp [mkTag]

theorem ks_inj_iv {key iv₁ iv₂ : List Nat} {i : Nat} (h : iv₁ ≠ iv₂) :
    ks key iv₁ i ≠ ks key iv₂ i := by
  intro he
  unfold ks at he
  rw [Nat.pair_eq_pair] at he
  have := he.1
  rw [Nat.pair_eq_pair] at this
  exact h (encodeList_injective this.2)

/-! ## Errors, environment, and the embedded source operations -/

/-- Errors thrown by the crypto module, following the spec's taxonomy.
The source throws untyped Error values; `configurationError` carries the
message of the two getMasterKey throws and of the reWrapDataKey length
check, `invalidKeyLength` models the RangeError thrown by
createCipheriv/createDecipheriv on a key that is not 32 bytes (classified
by the spec as a DecryptionError when it arises inside decrypt/unwrap),
`decryptionError` models the authentication failure thrown by
decipher.final, and `keyProvisioningError` carries the message of the
getOrCreateUserDataKey throw. -/
inductive CryptoError where
  | configurationError (msg : String)
  | invalidKeyLength
  | decryptionError
  | keyProvisioningError (msg : String)
deriving DecidableEq, Repr

/-- The process environment: the one configuration value the module reads.
The value is `none` when the variable is unset; the source's falsy test
also treats the empty string as unset. -/
structure Env where
  ENCRYPTION_MASTER_KEY : Option String
deriving DecidableEq, Repr

/-- Source constant KEY_LENGTH = 32. -/
def KEY_LENGTH : Nat := 32

/-- Source constant IV_LENGTH = 12. -/
def IV_LENGTH : Nat := 12

/-- Source constant AUTH_TAG_LENGTH = 16. -/
def AUTH_TAG_LENGTH : Nat := 16

/-- Embeds getMasterKey: reads ENCRYPTION_MASTER_KEY, throws when the
value is falsy (absent or empty), base64-decodes it, and throws when the
decoded length is not KEY_LENGTH. -/
def getMasterKey (env : Env) : Except CryptoError (List Nat) :=
  match env.ENCRYPTION_MASTER_KEY with
  | none => .error (.configurationError
      "ENCRYPTION_MASTER_KEY environment variable is not set")
  | some masterKeyBase64 =>
    if masterKeyBase64 = "" then
      .error (.configurationError
        "ENCRYPTION_MASTER_KEY environment variable is not set")
    else
      let key := b64decode masterKeyBase64
      if key.length ≠ KEY_LENGTH then
        .error (.configurationError "Master key must be 32 bytes")
      else .ok key

/-- Embeds the encryption side of the platform cipher: createCipheriv
(which validates the key length for aes-256), cipher.update + cipher.final
(the ciphertext), and cipher.getAuthTag (the tag). -/
def gcmSeal (key iv pt : List Nat) : Except CryptoError (List Nat × List Nat) :=
  if key.length ≠ KEY_LENGTH then .error .invalidKeyLength
  else .ok (streamEnc key iv 0 pt, mkTag key iv (streamEnc key iv 0 pt))

/-- Embeds the decryption side of the platform cipher: createDecipheriv
(key length validation), setAuthTag, decipher.update + decipher.final
(which throws when the tag does not authenticate (key, nonce,
ciphertext)). -/
def gcmOpen (key iv tag ct : List Nat) : Except CryptoError (List Nat) :=
  if key.length ≠ KEY_LENGTH then .error .invalidKeyLength
  else if tag = mkTag key iv ct then .ok (streamDec key iv 0 ct)
  else .error .decryptionError

/-- Embeds wrapDataKey; ivRand is the 12-byte draw of randomBytes(IV_LENGTH).
Wraps the data key under the master key and base64-encodes
iv ++ authTag ++ encrypted. -/
def wrapDataKey (env : Env) (dataKey : List Nat) (ivRand : List Nat) :
    Except CryptoError String := do
  let masterKey ← getMasterKey env
  let sealed ← gcmSeal masterKey ivRand dataKey
  return b64encode (ivRand ++ sealed.2 ++ sealed.1)

/-- Embeds unwrapDataKey: base64-decodes, splits at the fixed offsets
(iv = bytes [0,12), authTag = bytes [12,28), encrypted = bytes [28,end) via
subarray), and decrypts under the master key. -/
def unwrapDataKey (env : Env) (wrappedKey : String) :
    Except CryptoError (List Nat) := do
  let masterKey ← getMasterKey env
  let data := b64decode wrappedKey
  let iv := data.take IV_LENGTH
  let authTag := (data.drop IV_LENGTH).take AUTH_TAG_LENGTH
  let encrypted := data.drop (IV_LENGTH + AUTH_TAG_LENGTH)
  gcmOpen masterKey iv authTag encrypted

/-- The envelope record returned by encrypt: three independently
base64-encoded fields. -/
structure EncryptedData where
  ciphertext : String
  iv : String
  authTag : String
deriving DecidableEq, Repr

/-- Embeds encrypt; ivRand is the 12-byte draw of randomBytes(IV_LENGTH).
The env parameter models the ambient process environment, which the source
function never reads. -/
def encrypt (_env : Env) (plaintext : String) (dataKey : List Nat)
    (ivRand : List Nat) : Except CryptoError EncryptedData := do
  let sealed ← gcmSeal dataKey ivRand (utf8Encode plaintext)
  return { ciphertext := b64encode sealed.1
           iv := b64encode ivRand
           authTag := b64encode sealed.2 }

/-- Embeds decrypt: base64-decodes the three envelope fields, decrypts
under the caller-supplied data key, and decodes the plaintext bytes as
utf8.  The env parameter models the ambient process environment, which the
source function never reads. -/
def decrypt (_env : Env) (encryptedData : EncryptedData) (dataKey : List Nat) :
    Except CryptoError String := do
  let iv := b64decode encryptedData.iv
  let authTag := b64decode encryptedData.authTag
  let ciphertext := b64decode encryptedData.ciphertext
  let pt ← gcmOpen dataKey iv authTag ciphertext
  return utf8Decode pt

/-- Embeds reWrapDataKey; ivRand is the fresh 12-byte draw for the new
wrap.  Unwraps under the currently configured master key, validates the new
master key length, and wraps under the new master key. -/
def reWrapDataKey (env : Env) (wrappedKey : String)
    (newMasterKeyBase64 : String) (ivRand : List Nat) :
    Except CryptoError String := do
  let dataKey ← unwrapDataKey env wrappedKey
  let newMasterKey := b64decode newMasterKeyBase64
  if newMasterKey.length ≠ KEY_LENGTH then
    .error (.configurationError "New master key must be 32 bytes")
  else do
    let sealed ← gcmSeal newMasterKey ivRand dataKey
    return b64encode (ivRand ++ sealed.2 ++ sealed.1)

/-- One invocation's interaction with the external store, as seen by
getOrCreateUserDataKey: the first read's data and error, the insert's
error, and the data of the re-read performed on the insert-failure path
(the source destructures only data there). -/
structure StoreResponses where
  firstReadData : Option String
  firstReadError : Option String
  insertError : Option String
  retryReadData : Option String

/-- Embeds getOrCreateUserDataKey over an explicit interaction trace:
returns the unwrap of an existing row; otherwise generates a key (genKey
models randomBytes(32), wrapIv the wrap's nonce draw), wraps and inserts
it; on insert failure re-reads once and unwraps that row, and throws when
the re-read also finds nothing. -/
def getOrCreateUserDataKey (env : Env) (_userId : String)
    (store : StoreResponses) (genKey : List Nat) (wrapIv : List Nat) :
    Except CryptoError (List Nat) :=
  match store.firstReadData, store.firstReadError with
  | some existingKey, none => unwrapDataKey env existingKey
  | _, _ => do
    let wrappedKey ← wrapDataKey env genKey wrapIv
    let _ := wrappedKey
    match store.insertError with
    | some _ =>
      match store.retryReadData with
      | some retryKey => unwrapDataKey env retryKey
      | none => .error (.keyProvisioningError
          "Failed to create or retrieve user data key")
    | none => .ok genKey

/-! ## Basic operation lemmas -/

instance {ε α : Type} [DecidableEq ε] [DecidableEq α] :
    DecidableEq (Except ε α) := fun x y =>
  match x, y with
  | .ok a, .ok b =>
    if h : a = b then isTrue (by rw [h])
    else isFalse (fun hc => h (Except.ok.inj hc))
  | .error a, .error b =>
    if h : a = b then isTrue (by rw [h])
    else isFalse (fun hc => h (Except.error.inj hc))
  | .ok _, .error _ => isFalse (fun hc => Except.noConfusion hc)
  | .error _, .ok _ => isFalse (fun hc => Except.noConfusion hc)

theorem getMasterKey_ok_length {env : Env} {mk' : List Nat}
    (h : getMasterKey env = .ok mk') : mk'.length = 32 := by
  unfold getMasterKey at h
  split at h
  · simp at h
  · dsimp only at h
    split at h
    · simp at h
    · split at h
      · simp at h
      · rename_i hlen
        cases h
        simpa [KEY_LENGTH] using hlen

theorem gcmSeal_ok {key iv pt : List Nat} (hk : key.length = 32) :
    gcmSeal key iv pt = .ok (streamEnc key iv 0 pt, mkTag key iv (streamEnc key iv 0 pt)) := by
  simp [gcmSeal, KEY_LENGTH, hk]

theorem gcmOpen_seal {key iv pt : List Nat} (hk : key.length = 32) :
    gcmOpen key iv (mkTag key iv (streamEnc key iv 0 pt)) (streamEnc key iv 0 pt)
      = .ok pt := by
  simp [gcmOpen, KEY_LENGTH, hk, streamDec_streamEnc]

theorem wrapDataKey_ok {env : Env} {mk' : List Nat} (d iv : List Nat)
    (henv : getMasterKey env = .ok mk') :
    wrapDataKey env d iv
      = .ok (b64encode (iv ++ (mkTag mk' iv (streamEnc mk' iv 0 d)
          ++ streamEnc mk' iv 0 d))) := by
  rw [wrapDataKey, henv]
  simp [gcmSeal_ok (getMasterKey_ok_length henv), Except.map, Except.bind,
    Except.pure, bind, pure]

theorem unwrapDataKey_split {env : Env} {mk' : List Nat} (w : String)
    (henv : getMasterKey env = .ok mk') :
    unwrapDataKey env w
      = gcmOpen mk' ((b64decode w).take 12) (((b64decode w).drop 12).take 16)
          ((b64decode w).drop 28) := by
  rw [unwrapDataKey, henv]
  rfl

theorem unwrap_wrap {env : Env} {mk' : List Nat} (d iv : List Nat)
    (henv : getMasterKey env = .ok mk') (hiv : iv.length = 12) :
    unwrapDataKey env
      (b64encode (iv ++ (mkTag mk' iv (streamEnc mk' iv 0 d) ++ streamEnc mk' iv 0 d)))
      = .ok d := by
  rw [unwrapDataKey_split _ henv, b64decode_encode]
  have htag := mkTag_length mk' iv (streamEnc mk' iv 0 d)
  have h1 : ((iv ++ (mkTag mk' iv (streamEnc mk' iv 0 d) ++ streamEnc mk' iv 0 d)).take 12) = iv := by
    rw [← hiv, List.take_left]
  have h2 : ((iv ++ (mkTag mk' iv (streamEnc mk' iv 0 d) ++ streamEnc mk' iv 0 d)).drop 12)
      = mkTag mk' iv (streamEnc mk' iv 0 d) ++ streamEnc mk' iv 0 d := by
    rw [← hiv, List.drop_left]
  have h3 : ((iv ++ (mkTag mk' iv (streamEnc mk' iv 0 d) ++ streamEnc mk' iv 0 d)).drop 28)
      = streamEnc mk' iv 0 d := by
    rw [show (28 : Nat) = 12 + 16 by rfl, ← List.drop_drop, h2, ← htag, List.drop_left]
  rw [h1, h2, h3, ← htag, List.take_left]
  exact gcmOpen_seal (getMasterKey_ok_length henv)

theorem encrypt_ok (env : Env) (p : String) {k : List Nat} (iv : List Nat)
    (hk : k.length = 32) :
    encrypt env p k iv
      = .ok ⟨b64encode (streamEnc k iv 0 (utf8Encode p)), b64encode iv,
          b64encode (mkTag k iv (streamEnc k iv 0 (utf8Encode p)))⟩ := by
  simp [encrypt, gcmSeal_ok hk, Except.map, Except.bind, Except.pure, bind, pure]

theorem decrypt_eq (env : Env) (e : EncryptedData) (k : List Nat) :
    decrypt env e k
      = (gcmOpen k (b64decode e.iv) (b64decode e.authTag)
          (b64decode e.ciphertext)).map utf8Decode := by
  rw [decrypt]
  cases h : gcmOpen k (b64decode e.iv) (b64decode e.authTag) (b64decode e.ciphertext)
    <;> simp [h, Except.map, Except.bind, Except.pure, bind, pure]

theorem getMasterKey_bad {env : Env}
    (hbad : env.ENCRYPTION_MASTER_KEY = none
      ∨ ∃ s, env.ENCRYPTION_MASTER_KEY = some s
          ∧ (s = "" ∨ (b64decode s).length ≠ 32)) :
    ∃ m, getMasterKey env = .error (.configurationError m) := by
  rcases hbad with hn | ⟨s, hs, hcase⟩
  · exact ⟨_, by rw [getMasterKey, hn]⟩
  · rcases hcase with rfl | hlen
    · exact ⟨_, by rw [getMasterKey, hs]; rfl⟩
    · by_cases hs0 : s = ""
      · exact ⟨_, by rw [getMasterKey, hs, hs0]; rfl⟩
      · refine ⟨"Master key must be 32 bytes", ?_⟩
        rw [getMasterKey, hs]
        dsimp only
        rw [if_neg hs0, if_pos (by simpa [KEY_LENGTH] using hlen)]

/-! ## Claim theorems -/

/-- C1: for every plaintext string p (including the empty string and
multi-byte Unicode text) and every 32-byte key k, and whatever 12-byte
nonce encrypt draws, decrypt(encrypt(p, k), k) returns exactly p. -/
theorem claim_C1_encrypt_decrypt_roundtrip (env : Env) (p : String)
    (k iv : List Nat) (hk : k.length = 32) :
    ∃ e, encrypt env p k iv = .ok e ∧ decrypt env e k = .ok p := by
  refine ⟨⟨b64encode (streamEnc k iv 0 (utf8Encode p)), b64encode iv,
    b64encode (mkTag k iv (streamEnc k iv 0 (utf8Encode p)))⟩, ?_, ?_⟩
  · simp [encrypt, gcmSeal_ok hk, Except.map, Except.bind, Except.pure, bind,
      pure]
  · simp [decrypt, b64decode_encode, gcmOpen_seal hk, utf8Decode_encode,
      Except.map, Except.bind, Except.pure, bind, pure]

/-- C1 witness: the round trip at a concrete multi-byte plaintext and a
concrete 32-byte key. -/
theorem claim_C1_witness :
    ∃ e, encrypt ⟨none⟩ "Héllo, 日本語 🎉" (List.replicate 32 1) (List.replicate 12 2)
        = .ok e
      ∧ decrypt ⟨none⟩ e (List.replicate 32 1) = .ok "Héllo, 日本語 🎉" :=
  claim_C1_encrypt_decrypt_roundtrip ⟨none⟩ "Héllo, 日本語 🎉"
    (List.replicate 32 1) (List.replicate 12 2) (by decide)

/-- C4: for every 32-byte DataKey d and every valid 32-byte master-key
configuration, whatever 12-byte nonce wrapDataKey draws,
unwrapDataKey(wrapDataKey(d)) returns exactly d. -/
theorem claim_C4_wrap_unwrap_roundtrip (env : Env) (mk' d iv : List Nat)
    (henv : getMasterKey env = .ok mk') (_hd : d.length = 32)
    (hiv : iv.length = 12) :
    ∃ w, wrapDataKey env d iv = .ok w ∧ unwrapDataKey env w = .ok d := by
  refine ⟨_, wrapDataKey_ok d iv henv, ?_⟩
  exact unwrap_wrap d iv henv hiv

/-- C4 witness: the wrap round trip at a concrete master key configuration
and a concrete 32-byte data key. -/
theorem claim_C4_witness :
    ∃ w, wrapDataKey ⟨some (b64encode (List.replicate 32 7))⟩
          (List.replicate 32 3) (List.replicate 12 4) = .ok w
      ∧ unwrapDataKey ⟨some (b64encode (List.replicate 32 7))⟩ w
          = .ok (List.replicate 32 3) :=
  claim_C4_wrap_unwrap_roundtrip ⟨some (b64encode (List.replicate 32 7))⟩
    (List.replicate 32 7) (List.replicate 32 3) (List.replicate 12 4)
    (by decide) (by decide) (by decide)

/-- C2 counterexample: with the master-key configuration missing entirely,
encrypt succeeds (it takes the data key as an explicit argument and never
reads the configuration), so it does not raise ConfigurationError as the
claim states. -/
theorem claim_C2_counterexample :
    (encrypt ⟨none⟩ "Hello, journal." (List.replicate 32 1)
      (List.replicate 12 0)).isOk = true := rfl

/-- C2 as amended: for every master-key configuration value that is missing
(unset or empty, which the source's falsy test treats alike) or whose
lenient base64 decode is not exactly 32 bytes, wrapDataKey and unwrapDataKey
raise ConfigurationError before performing any cryptographic work, regardless
of their other arguments; encrypt and decrypt never read the master-key
configuration, so their results are identical across all configuration
states. -/
theorem claim_C2_config_failure (env : Env)
    (hbad : env.ENCRYPTION_MASTER_KEY = none
      ∨ ∃ s, env.ENCRYPTION_MASTER_KEY = some s
          ∧ (s = "" ∨ (b64decode s).length ≠ 32)) :
    (∀ d iv, ∃ m, wrapDataKey env d iv = .error (.configurationError m))
    ∧ (∀ w, ∃ m, unwrapDataKey env w = .error (.configurationError m))
    ∧ (∀ env₂ p k iv, encrypt env p k iv = encrypt env₂ p k iv)
    ∧ (∀ env₂ e k, decrypt env e k = decrypt env₂ e k) := by
  obtain ⟨m, hm⟩ := getMasterKey_bad hbad
  refine ⟨?_, ?_, fun env₂ p k iv => rfl, fun env₂ e k => rfl⟩
  · intro d iv
    refine ⟨m, ?_⟩
    rw [wrapDataKey, hm]
    rfl
  · intro w
    refine ⟨m, ?_⟩
    rw [unwrapDataKey, hm]
    rfl

/-- C2 witness: the amended claim at a configuration value that decodes to
zero bytes. -/
theorem claim_C2_witness :
    (∀ d iv, ∃ m, wrapDataKey ⟨some "zz"⟩ d iv = .error (.configurationError m))
    ∧ (∀ w, ∃ m, unwrapDataKey ⟨some "zz"⟩ w = .error (.configurationError m))
    ∧ (∀ env₂ p k iv, encrypt ⟨some "zz"⟩ p k iv = encrypt env₂ p k iv)
    ∧ (∀ env₂ e k, decrypt ⟨some "zz"⟩ e k = decrypt env₂ e k) :=
  claim_C2_config_failure ⟨some "zz"⟩ (Or.inr ⟨"zz", rfl, Or.inr (by decide)⟩)

/-- C3: decrypt fails closed.  A wrong-length key fails with the cipher
construction error (classified as DecryptionError by the spec taxonomy); a
tag that does not authenticate (key, nonce, ciphertext) fails with
DecryptionError; a successful decrypt implies the tag authenticated the
exact decoded fields and the result is the full keystream inverse (never
partial or altered plaintext); and decrypting an envelope produced under
k1 with a different 32-byte key k2 fails with DecryptionError. -/
theorem claim_C3_decrypt_fail_closed :
    (∀ env e (k : List Nat), k.length ≠ 32 →
      decrypt env e k = .error .invalidKeyLength)
    ∧ (∀ env e (k : List Nat), k.length = 32 →
        b64decode e.authTag
          ≠ mkTag k (b64decode e.iv) (b64decode e.ciphertext) →
        decrypt env e k = .error .decryptionError)
    ∧ (∀ env e (k : List Nat) s, decrypt env e k = .ok s →
        b64decode e.authTag
            = mkTag k (b64decode e.iv) (b64decode e.ciphertext)
          ∧ s = utf8Decode (streamDec k (b64decode e.iv) 0
              (b64decode e.ciphertext)))
    ∧ (∀ env p (k₁ k₂ iv : List Nat) e, k₁.length = 32 → k₂.length = 32 →
        k₁ ≠ k₂ → encrypt env p k₁ iv = .ok e →
        decrypt env e k₂ = .error .decryptionError) := by
  refine ⟨?_, ?_, ?_, ?_⟩
  · intro env e k hk
    rw [decrypt_eq, gcmOpen, if_pos (by simpa [KEY_LENGTH] using hk)]
    rfl
  · intro env e k hk htag
    rw [decrypt_eq, gcmOpen, if_neg (by simp [KEY_LENGTH, hk]), if_neg htag]
    rfl
  · intro env e k s hok
    rw [decrypt_eq] at hok
    unfold gcmOpen at hok
    split at hok
    · simp [Except.map] at hok
    · split at hok
      · rename_i htag
        refine ⟨htag, ?_⟩
        simpa [Except.map] using hok.symm
      · simp [Except.map] at hok
  · intro env p k₁ k₂ iv e h₁ h₂ hne henc
    rw [encrypt_ok env p iv h₁] at henc
    cases henc
    rw [decrypt_eq]
    simp only [b64decode_encode]
    rw [gcmOpen, if_neg (by simp [KEY_LENGTH, h₂]), if_neg]
    · rfl
    · intro htag
      exact hne (mkTag_injective htag).1

set_option maxRecDepth 8000 in
/-- C3 witness: each failure mode at concrete inputs — an empty (hence
wrong-length) key, an all-empty envelope whose tag cannot authenticate, a
successfully decrypting envelope, and a cross-key decrypt. -/
theorem claim_C3_witness :
    decrypt ⟨none⟩ ⟨"", "", ""⟩ [] = .error .invalidKeyLength
    ∧ decrypt ⟨none⟩ ⟨"", "", ""⟩ (List.replicate 32 1)
        = .error .decryptionError
    ∧ (b64decode (⟨"", b64encode (List.replicate 12 0),
          b64encode (mkTag (List.replicate 32 1) (List.replicate 12 0) [])⟩
            : EncryptedData).authTag
          = mkTag (List.replicate 32 1)
              (b64decode (⟨"", b64encode (List.replicate 12 0),
                b64encode (mkTag (List.replicate 32 1) (List.replicate 12 0) [])⟩
                  : EncryptedData).iv)
              (b64decode (⟨"", b64encode (List.replicate 12 0),
                b64encode (mkTag (List.replicate 32 1) (List.replicate 12 0) [])⟩
                  : EncryptedData).ciphertext)
        ∧ "" = utf8Decode (streamDec (List.replicate 32 1)
            (b64decode (⟨"", b64encode (List.replicate 12 0),
              b64encode (mkTag (List.replicate 32 1) (List.replicate 12 0) [])⟩
                : EncryptedData).iv) 0
            (b64decode (⟨"", b64encode (List.replicate 12 0),
              b64encode (mkTag (List.replicate 32 1) (List.replicate 12 0) [])⟩
                : EncryptedData).ciphertext)))
    ∧ decrypt ⟨none⟩
        ⟨b64encode (streamEnc (List.replicate 32 1) (List.replicate 12 0) 0
            (utf8Encode "x")), b64encode (List.replicate 12 0),
          b64encode (mkTag (List.replicate 32 1) (List.replicate 12 0)
            (streamEnc (List.replicate 32 1) (List.replicate 12 0) 0
              (utf8Encode "x")))⟩
        (List.replicate 32 2) = .error .decryptionError :=
  ⟨claim_C3_decrypt_fail_closed.1 ⟨none⟩ ⟨"", "", ""⟩ [] (by decide),
   claim_C3_decrypt_fail_closed.2.1 ⟨none⟩ ⟨"", "", ""⟩ (List.replicate 32 1)
     (by decide) (by decide),
   claim_C3_decrypt_fail_closed.2.2.1 ⟨none⟩
     ⟨"", b64encode (List.replicate 12 0),
       b64encode (mkTag (List.replicate 32 1) (List.replicate 12 0) [])⟩
     (List.replicate 32 1) "" (by rfl),
   claim_C3_decrypt_fail_closed.2.2.2 ⟨none⟩ "x" (List.replicate 32 1)
     (List.replicate 32 2) (List.replicate 12 0) _ (by decide) (by decide)
     (by decide) (encrypt_ok ⟨none⟩ "x" (List.replicate 12 0) (by decide))⟩

/-- C5: unwrapDataKey base-decodes its input and splits the bytes at the
fixed offsets nonce [0,12), authTag [12,28), ciphertext [28,end); it fails
with DecryptionError whenever the decoded length is too short for the
28-byte header or the authentication tag does not verify. -/
theorem claim_C5_unwrap_layout (env : Env) (mk' : List Nat) (w : String)
    (henv : getMasterKey env = .ok mk') :
    unwrapDataKey env w
        = gcmOpen mk' ((b64decode w).take 12) (((b64decode w).drop 12).take 16)
            ((b64decode w).drop 28)
    ∧ ((b64decode w).length < 28 →
        unwrapDataKey env w = .error .decryptionError)
    ∧ (((b64decode w).drop 12).take 16
          ≠ mkTag mk' ((b64decode w).take 12) ((b64decode w).drop 28) →
        unwrapDataKey env w = .error .decryptionError) := by
  have hsplit := unwrapDataKey_split w henv
  have hmk := getMasterKey_ok_length henv
  refine ⟨hsplit, ?_, ?_⟩
  · intro hshort
    have hlt : (((b64decode w).drop 12).take 16).length < 16 := by
      rw [List.length_take, List.length_drop]
      omega
    have hne : ((b64decode w).drop 12).take 16
        ≠ mkTag mk' ((b64decode w).take 12) ((b64decode w).drop 28) := by
      intro he
      rw [he, mkTag_length] at hlt
      omega
    rw [hsplit, gcmOpen, if_neg (by simp [KEY_LENGTH, hmk]), if_neg hne]
  · intro hne
    rw [hsplit, gcmOpen, if_neg (by simp [KEY_LENGTH, hmk]), if_neg hne]

/-- C5 witness: the layout equation and both failure modes at a concrete
valid configuration and a concrete short wrapped string. -/
theorem claim_C5_witness :
    unwrapDataKey ⟨some (b64encode (List.replicate 32 7))⟩ "9."
        = gcmOpen (List.replicate 32 7) ((b64decode "9.").take 12)
            (((b64decode "9.").drop 12).take 16) ((b64decode "9.").drop 28)
    ∧ ((b64decode "9.").length < 28 →
        unwrapDataKey ⟨some (b64encode (List.replicate 32 7))⟩ "9."
          = .error .decryptionError)
    ∧ (((b64decode "9.").drop 12).take 16
          ≠ mkTag (List.replicate 32 7) ((b64decode "9.").take 12)
              ((b64decode "9.").drop 28) →
        unwrapDataKey ⟨some (b64encode (List.replicate 32 7))⟩ "9."
          = .error .decryptionError) :=
  claim_C5_unwrap_layout ⟨some (b64encode (List.replicate 32 7))⟩
    (List.replicate 32 7) "9." (by rfl)

/-! ## Concurrency model for key provisioning

Models N concurrent invocations of getOrCreateUserDataKey for one user
against an external store satisfying the collaborator contract of spec §6:
the user's key row is a single cell, point lookups see its current value
atomically, and an insert fails precisely when a row already exists
(uniqueness constraint with a distinguishable conflict error).  Each call is
a small state machine whose atomic store interactions follow the source:
first read; on miss, generate + wrap + insert; on insert conflict, one
re-read.  A scheduler interleaves the calls arbitrarily. -/

/-- Control state of one in-flight call. -/
inductive Phase where
  | start
  | insertPending
  | retryPending
  | done (result : Except CryptoError (List Nat))
deriving DecidableEq, Repr

/-- One in-flight call: its generated key and wrap nonce (drawn fresh by
randomBytes) and its control state. -/
structure Call where
  genKey : List Nat
  iv : List Nat
  phase : Phase
deriving DecidableEq, Repr

/-- Global state: the user's single store row and the in-flight calls. -/
structure SysState where
  store : Option String
  calls : List Call
deriving DecidableEq, Repr

/-- One atomic store interaction of a single call, following the source:
a first read that returns the row when present; otherwise wrap-and-insert,
which succeeds only when no row exists (uniqueness) and conflicts
otherwise; after a conflict, one re-read that returns the row when present
and otherwise ends in KeyProvisioningError. -/
def callStep (env : Env) (store : Option String) (c : Call) :
    Option String × Call :=
  match c.phase with
  | .start =>
    match store with
    | some w => (store, { c with phase := .done (unwrapDataKey env w) })
    | none => (store, { c with phase := .insertPending })
  | .insertPending =>
    match wrapDataKey env c.genKey c.iv with
    | .error e => (store, { c with phase := .done (.error e) })
    | .ok w =>
      match store with
      | none => (some w, { c with phase := .done (.ok c.genKey) })
      | some _ => (store, { c with phase := .retryPending })
  | .retryPending =>
    match store with
    | some w => (store, { c with phase := .done (unwrapDataKey env w) })
    | none => (store, { c with phase := .done (.error (.keyProvisioningError
        "Failed to create or retrieve user data key")) })
  | .done _ => (store, c)

/-- The scheduler lets call i take its next atomic step. -/
def sysStepAt (env : Env) (s : SysState) (i : Nat) : SysState :=
  if h : i < s.calls.length then
    let r := callStep env s.store s.calls[i]
    ⟨r.1, s.calls.set i r.2⟩
  else s

/-- One interleaving step: some call takes its next atomic step. -/
inductive SysStep (env : Env) : SysState → SysState → Prop where
  | mk (i : Nat) (s : SysState) : SysStep env s (sysStepAt env s i)

/-- Invariant: all wrap nonces are 12 bytes; while no row exists every call
is before its insert; once a row exists it unwraps successfully and every
finished call finished with the unwrap of that row. -/
def Inv (env : Env) (s : SysState) : Prop :=
  (∀ c ∈ s.calls, c.iv.length = 12)
  ∧ (s.store = none →
      ∀ c ∈ s.calls, c.phase = .start ∨ c.phase = .insertPending)
  ∧ (∀ w, s.store = some w →
      (∃ d, unwrapDataKey env w = .ok d)
      ∧ ∀ c ∈ s.calls, c.phase = .start ∨ c.phase = .insertPending
          ∨ c.phase = .retryPending
          ∨ c.phase = .done (unwrapDataKey env w))


/-- C6: when the initial store lookup finds no wrapped key and the insert
fails, getOrCreateUserDataKey performs one re-read: it returns the unwrap of
the re-read row's stored wrapped key when one exists (discarding the key it
just generated), and fails with KeyProvisioningError when the re-read also
finds nothing, returning no generated, default, or unwrapped key. -/
theorem claim_C6_race_paths (env : Env) (mk' : List Nat) (userId : String)
    (fErr : Option String) (iErr : String) (retry : Option String)
    (genKey wrapIv : List Nat) (henv : getMasterKey env = .ok mk') :
    (∀ w, retry = some w →
      getOrCreateUserDataKey env userId ⟨none, fErr, some iErr, retry⟩
          genKey wrapIv
        = unwrapDataKey env w)
    ∧ (retry = none →
      getOrCreateUserDataKey env userId ⟨none, fErr, some iErr, retry⟩
          genKey wrapIv
        = .error (.keyProvisioningError
            "Failed to create or retrieve user data key")) := by
  constructor
  · intro w hw
    subst hw
    rw [getOrCreateUserDataKey]
    simp [wrapDataKey_ok genKey wrapIv henv, Except.bind, bind]
  · intro hw
    subst hw
    rw [getOrCreateUserDataKey]
    simp [wrapDataKey_ok genKey wrapIv henv, Except.bind, bind]

/-- C6 witness: both insert-failure outcomes at a concrete valid
configuration, a concrete re-read row and a concrete empty re-read. -/
theorem claim_C6_witness :
    getOrCreateUserDataKey ⟨some (b64encode (List.replicate 32 7))⟩ "user-1"
        ⟨none, none, some "conflict", some "9."⟩ (List.replicate 32 3)
        (List.replicate 12 4)
      = unwrapDataKey ⟨some (b64encode (List.replicate 32 7))⟩ "9."
    ∧ getOrCreateUserDataKey ⟨some (b64encode (List.replicate 32 7))⟩ "user-1"
        ⟨none, none, some "broken", none⟩ (List.replicate 32 3)
        (List.replicate 12 4)
      = .error (.keyProvisioningError
          "Failed to create or retrieve user data key") :=
  ⟨(claim_C6_race_paths ⟨some (b64encode (List.replicate 32 7))⟩
      (List.replicate 32 7) "user-1" none "conflict" (some "9.")
      (List.replicate 32 3) (List.replicate 12 4) (by rfl)).1 "9." rfl,
   (claim_C6_race_paths ⟨some (b64encode (List.replicate 32 7))⟩
      (List.replicate 32 7) "user-1" none "broken" none
      (List.replicate 32 3) (List.replicate 12 4) (by rfl)).2 rfl⟩

/-- C7: for every wrapped key w that unwraps to DataKey d under the current
master-key configuration, every new master-key value decoding to exactly 32
bytes, and whatever fresh 12-byte nonce the re-wrap draws, unwrapping
reWrapDataKey(w, newKey) under the new master-key configuration recovers
exactly d. -/
theorem claim_C7_rotation (env : Env) (w newB64 : String) (d iv₂ : List Nat)
    (hun : unwrapDataKey env w = .ok d)
    (hnew : (b64decode newB64).length = 32) (hiv : iv₂.length = 12) :
    ∃ w₂, reWrapDataKey env w newB64 iv₂ = .ok w₂
      ∧ unwrapDataKey ⟨some newB64⟩ w₂ = .ok d := by
  have hne : newB64 ≠ "" := by
    intro h0
    rw [h0] at hnew
    simp [b64decode, b64decodeAux] at hnew
  have henv₂ : getMasterKey ⟨some newB64⟩ = .ok (b64decode newB64) := by
    rw [getMasterKey]
    dsimp only
    rw [if_neg hne, if_neg (by simp [KEY_LENGTH, hnew])]
  refine ⟨b64encode (iv₂ ++ (mkTag (b64decode newB64) iv₂
      (streamEnc (b64decode newB64) iv₂ 0 d)
    ++ streamEnc (b64decode newB64) iv₂ 0 d)), ?_, ?_⟩
  · rw [reWrapDataKey]
    simp [hun, gcmSeal_ok hnew, KEY_LENGTH, hnew, Except.bind, Except.map,
      Except.pure, bind, pure]
  · exact unwrap_wrap d iv₂ henv₂ hiv

/-- C7 witness: rotation from an all-zero master key to an all-one master
key at a concrete wrapped key. -/
theorem claim_C7_witness :
    ∃ w₂, reWrapDataKey ⟨some (b64encode (List.replicate 32 0))⟩
        (b64encode (List.replicate 12 0
          ++ (mkTag (List.replicate 32 0) (List.replicate 12 0)
                (streamEnc (List.replicate 32 0) (List.replicate 12 0) 0
                  (List.replicate 32 5))
              ++ streamEnc (List.replicate 32 0) (List.replicate 12 0) 0
                  (List.replicate 32 5))))
        (b64encode (List.replicate 32 1)) (List.replicate 12 6) = .ok w₂
      ∧ unwrapDataKey ⟨some (b64encode (List.replicate 32 1))⟩ w₂
          = .ok (List.replicate 32 5) :=
  claim_C7_rotation ⟨some (b64encode (List.replicate 32 0))⟩
    (b64encode (List.replicate 12 0
      ++ (mkTag (List.replicate 32 0) (List.replicate 12 0)
            (streamEnc (List.replicate 32 0) (List.replicate 12 0) 0
              (List.replicate 32 5))
          ++ streamEnc (List.replicate 32 0) (List.replicate 12 0) 0
              (List.replicate 32 5))))
    (b64encode (List.replicate 32 1)) (List.replicate 32 5)
    (List.replicate 12 6)
    (unwrap_wrap (List.replicate 32 5) (List.replicate 12 0) (by rfl)
      (by decide))
    (by rw [b64decode_encode]; decide) (by decide)

/-- C9 counterexample: encrypting the empty plaintext twice under the same
32-byte key with two distinct drawn nonces yields the same (empty)
ciphertext value in both envelopes, so the two ciphertext values are not
different as the claim states. -/
theorem claim_C9_counterexample :
    (List.replicate 12 0 : List Nat) ≠ List.replicate 12 1
    ∧ (encrypt ⟨none⟩ "" (List.replicate 32 1)
          (List.replicate 12 0)).map (fun e => e.ciphertext)
        = (encrypt ⟨none⟩ "" (List.replicate 32 1)
            (List.replicate 12 1)).map (fun e => e.ciphertext) :=
  ⟨by decide, rfl⟩

/-- C9 as amended: two calls of encrypt with the same plaintext and the same
32-byte key, drawing two distinct fresh 12-byte nonces, yield envelopes with
two different nonce values, and with two different ciphertext values
whenever the plaintext is nonempty (for the empty plaintext both ciphertext
fields are the encoding of the empty byte string). -/
theorem claim_C9_fresh_nonce (env : Env) (p : String) (k iv₁ iv₂ : List Nat)
    (hk : k.length = 32) (hne : iv₁ ≠ iv₂) :
    ∃ e₁ e₂, encrypt env p k iv₁ = .ok e₁ ∧ encrypt env p k iv₂ = .ok e₂
      ∧ e₁.iv ≠ e₂.iv
      ∧ (p ≠ "" → e₁.ciphertext ≠ e₂.ciphertext) := by
  refine ⟨_, _, encrypt_ok env p iv₁ hk, encrypt_ok env p iv₂ hk, ?_, ?_⟩
  · intro h
    exact hne (b64encode_injective h)
  · intro hp h
    have hstream := b64encode_injective h
    match hdata : utf8Encode p with
    | [] =>
      apply hp
      cases p with
      | mk data =>
        cases data with
        | nil => rfl
        | cons c cs => simp [utf8Encode] at hdata
    | c :: cs =>
      rw [hdata] at hstream
      simp only [streamEnc, List.cons.injEq] at hstream
      have := Nat.add_left_cancel hstream.1
      exact ks_inj_iv hne this

/-- C9 witness: the amended claim at a concrete nonempty plaintext, key,
and pair of distinct nonces. -/
theorem claim_C9_witness :
    ∃ e₁ e₂, encrypt ⟨none⟩ "x" (List.replicate 32 1) (List.replicate 12 0)
        = .ok e₁
      ∧ encrypt ⟨none⟩ "x" (List.replicate 32 1) (List.replicate 12 1) = .ok e₂
      ∧ e₁.iv ≠ e₂.iv
      ∧ ("x" ≠ "" → e₁.ciphertext ≠ e₂.ciphertext) :=
  claim_C9_fresh_nonce ⟨none⟩ "x" (List.replicate 32 1) (List.replicate 12 0)
    (List.replicate 12 1) (by decide) (by decide)

/-- C10: encrypt and decrypt depend only on their explicit arguments (and
the drawn nonce for encrypt) and never read the master-key configuration:
for any two environment states — configured, malformed, or absent — both
runs produce the identical result. -/
theorem claim_C10_config_independent :
    (∀ env₁ env₂ : Env, ∀ p k iv, encrypt env₁ p k iv = encrypt env₂ p k iv)
    ∧ (∀ env₁ env₂ : Env, ∀ e k, decrypt env₁ e k = decrypt env₂ e k) :=
  ⟨fun _ _ _ _ _ => rfl, fun _ _ _ _ => rfl⟩

theorem sysStep_calls_length {env : Env} {a b : SysState}
    (h : SysStep env a b) : b.calls.length = a.calls.length := by
  cases h with
  | mk i =>
    rw [sysStepAt]
    by_cases hi : i < a.calls.length
    · rw [dif_pos hi]
      simp
    · rw [dif_neg hi]

theorem inv_preserved {env : Env} {mk' : List Nat}
    (henv : getMasterKey env = .ok mk') {s t : SysState}
    (hstep : SysStep env s t) (hinv : Inv env s) : Inv env t := by
  cases hstep with
  | mk i s =>
    rw [sysStepAt]
    by_cases hi : i < s.calls.length
    · rw [dif_pos hi]
      have hcmem : s.calls[i] ∈ s.calls := List.getElem_mem hi
      have hciv : s.calls[i].iv.length = 12 := hinv.1 _ hcmem
      have hivs : ∀ c ∈ s.calls.set i ((callStep env s.store s.calls[i]).2),
          c.iv.length = 12 := by
        intro c hc
        rcases List.mem_or_eq_of_mem_set hc with hc | rfl
        · exact hinv.1 c hc
        · cases hp : s.calls[i].phase <;>
            simp only [callStep, hp] at * <;>
            first
              | exact hciv
              | (split <;> try split) <;> simp <;> exact hciv
      cases hp : s.calls[i].phase with
      | start =>
        cases hst : s.store with
        | none =>
          refine ⟨by simpa [callStep, hp, hst] using hivs, ?_, ?_⟩
          · intro _ c hc
            rcases List.mem_or_eq_of_mem_set (by simpa [callStep, hp, hst] using hc)
              with hc | rfl
            · exact hinv.2.1 hst c hc
            · simp [callStep, hp, hst]
          · intro w hw
            simp [callStep, hp, hst] at hw
        | some w =>
          obtain ⟨hdw, hall⟩ := hinv.2.2 w hst
          refine ⟨by simpa [callStep, hp, hst] using hivs, ?_, ?_⟩
          · intro h0
            simp [callStep, hp, hst] at h0
          · intro w2 hw2
            simp only [callStep, hp, hst] at hw2 ⊢
            cases hw2
            refine ⟨hdw, ?_⟩
            intro c hc
            rcases List.mem_or_eq_of_mem_set hc with hc | rfl
            · exact hall c hc
            · exact Or.inr (Or.inr (Or.inr rfl))
      | insertPending =>
        have hwrap := wrapDataKey_ok s.calls[i].genKey s.calls[i].iv henv
        cases hst : s.store with
        | none =>
          have hunw := unwrap_wrap s.calls[i].genKey s.calls[i].iv henv hciv
          refine ⟨by simpa [callStep, hp, hst, hwrap] using hivs, ?_, ?_⟩
          · intro h0
            simp [callStep, hp, hst, hwrap] at h0
          · intro w2 hw2
            simp only [callStep, hp, hst, hwrap] at hw2 ⊢
            cases hw2
            refine ⟨⟨s.calls[i].genKey, hunw⟩, ?_⟩
            intro c hc
            rcases List.mem_or_eq_of_mem_set hc with hc | rfl
            · rcases hinv.2.1 hst c hc with h | h
              · exact Or.inl h
              · exact Or.inr (Or.inl h)
            · refine Or.inr (Or.inr (Or.inr ?_))
              rw [hunw]
        | some w =>
          obtain ⟨hdw, hall⟩ := hinv.2.2 w hst
          refine ⟨by simpa [callStep, hp, hst, hwrap] using hivs, ?_, ?_⟩
          · intro h0
            simp [callStep, hp, hst, hwrap] at h0
          · intro w2 hw2
            simp only [callStep, hp, hst, hwrap] at hw2 ⊢
            cases hw2
            refine ⟨hdw, ?_⟩
            intro c hc
            rcases List.mem_or_eq_of_mem_set hc with hc | rfl
            · exact hall c hc
            · exact Or.inr (Or.inr (Or.inl rfl))
      | retryPending =>
        cases hst : s.store with
        | none =>
          rcases hinv.2.1 hst _ hcmem with h | h <;> rw [hp] at h <;> cases h
        | some w =>
          obtain ⟨hdw, hall⟩ := hinv.2.2 w hst
          refine ⟨by simpa [callStep, hp, hst] using hivs, ?_, ?_⟩
          · intro h0
            simp [callStep, hp, hst] at h0
          · intro w2 hw2
            simp only [callStep, hp, hst] at hw2 ⊢
            cases hw2
            refine ⟨hdw, ?_⟩
            intro c hc
            rcases List.mem_or_eq_of_mem_set hc with hc | rfl
            · exact hall c hc
            · exact Or.inr (Or.inr (Or.inr rfl))
      | done r =>
        refine ⟨by simpa [callStep, hp] using hivs, ?_, ?_⟩
        · intro h0
          simp only [callStep, hp] at h0 ⊢
          intro c hc
          rcases List.mem_or_eq_of_mem_set hc with hc | rfl
          · exact hinv.2.1 h0 c hc
          · rcases hinv.2.1 h0 _ hcmem with h | h <;> rw [hp] at h <;> cases h
        · intro w2 hw2
          simp only [callStep, hp] at hw2 ⊢
          obtain ⟨hdw, hall⟩ := hinv.2.2 w2 hw2
          refine ⟨hdw, ?_⟩
          intro c hc
          rcases List.mem_or_eq_of_mem_set hc with hc | rfl
          · exact hall c hc
          · exact hall _ hcmem
    · rw [dif_neg hi]
      exact hinv

theorem inv_reachable {env : Env} {mk' : List Nat}
    (henv : getMasterKey env = .ok mk') {s t : SysState}
    (hreach : Relation.ReflTransGen (SysStep env) s t) (hinv : Inv env s) :
    Inv env t := by
  induction hreach with
  | refl => exact hinv
  | tail _ hstep ih => exact inv_preserved henv hstep ih

theorem reach_calls_length {env : Env} {s t : SysState}
    (hreach : Relation.ReflTransGen (SysStep env) s t) :
    t.calls.length = s.calls.length := by
  induction hreach with
  | refl => rfl
  | tail _ hstep ih => rw [sysStep_calls_length hstep, ih]

/-- C8: if getOrCreateUserDataKey is invoked for a user with no existing
key row by any number of concurrently interleaved calls (at least one), and
the store enforces the uniqueness contract, then once every call has
finished there is exactly one wrapped row in the store, it unwraps
successfully, and every call returned the same raw DataKey bytes. -/
theorem claim_C8_provisioning_race (env : Env) (mk' : List Nat)
    (calls₀ : List Call) (s' : SysState)
    (henv : getMasterKey env = .ok mk')
    (hstart : ∀ c ∈ calls₀, c.phase = .start)
    (hiv : ∀ c ∈ calls₀, c.iv.length = 12)
    (hne : calls₀ ≠ [])
    (hreach : Relation.ReflTransGen (SysStep env) ⟨none, calls₀⟩ s')
    (hdone : ∀ c ∈ s'.calls, ∃ r, c.phase = .done r) :
    ∃ w d, s'.store = some w ∧ unwrapDataKey env w = .ok d
      ∧ ∀ c ∈ s'.calls, c.phase = .done (.ok d) := by
  have hinv : Inv env s' := by
    refine inv_reachable henv hreach
      ⟨hiv, fun _ c hc => Or.inl (hstart c hc), fun w hw => ?_⟩
    simp at hw
  have hlen : s'.calls.length = calls₀.length := reach_calls_length hreach
  cases hs : s'.store with
  | none =>
    exfalso
    cases hc : s'.calls with
    | nil =>
      apply hne
      cases calls₀ with
      | nil => rfl
      | cons x xs => rw [hc] at hlen; simp at hlen
    | cons c cs =>
      have hcm : c ∈ s'.calls := by rw [hc]; exact List.mem_cons_self c cs
      obtain ⟨r, hr⟩ := hdone c hcm
      rcases hinv.2.1 hs c hcm with h | h <;> rw [hr] at h <;> cases h
  | some w =>
    obtain ⟨⟨d, hd⟩, hall⟩ := hinv.2.2 w hs
    refine ⟨w, d, rfl, hd, ?_⟩
    intro c hc
    obtain ⟨r, hr⟩ := hdone c hc
    rcases hall c hc with h | h | h | h
    · rw [hr] at h; cases h
    · rw [hr] at h; cases h
    · rw [hr] at h; cases h
    · rw [h, hd]

/-- Concrete configuration for the C8 witness run. -/
def raceEnv : Env := ⟨some (b64encode (List.replicate 32 7))⟩

/-- Concrete master key bytes for the C8 witness run. -/
def raceMaster : List Nat := List.replicate 32 7

/-- Concrete generated data key for the C8 witness run. -/
def raceKey : List Nat := List.replicate 32 0

/-- Concrete wrap nonce for the C8 witness run. -/
def raceIv : List Nat := List.replicate 12 0

/-- The wrapped row the C8 witness run inserts. -/
def raceWrapped : String :=
  b64encode (raceIv ++ (mkTag raceMaster raceIv (streamEnc raceMaster raceIv 0 raceKey)
    ++ streamEnc raceMaster raceIv 0 raceKey))

/-- C8 witness: a concrete complete run — one call, first read misses,
insert succeeds — reaching a final state with exactly one row and every
call finished with the same key bytes. -/
theorem claim_C8_witness :
    ∃ w d, (⟨some raceWrapped,
          [⟨raceKey, raceIv, Phase.done (.ok raceKey)⟩]⟩ : SysState).store
        = some w
      ∧ unwrapDataKey raceEnv w = .ok d
      ∧ ∀ c ∈ (⟨some raceWrapped,
            [⟨raceKey, raceIv, Phase.done (.ok raceKey)⟩]⟩ : SysState).calls,
          c.phase = Phase.done (.ok d) := by
  have henv : getMasterKey raceEnv = .ok raceMaster := by rfl
  have h1 : sysStepAt raceEnv ⟨none, [⟨raceKey, raceIv, .start⟩]⟩ 0
      = ⟨none, [⟨raceKey, raceIv, .insertPending⟩]⟩ := by rfl
  have h2 : sysStepAt raceEnv ⟨none, [⟨raceKey, raceIv, .insertPending⟩]⟩ 0
      = ⟨some raceWrapped, [⟨raceKey, raceIv, .done (.ok raceKey)⟩]⟩ := by
    have hw := wrapDataKey_ok raceKey raceIv henv
    simp [sysStepAt, callStep, hw, raceWrapped]
  refine claim_C8_provisioning_race raceEnv raceMaster
    [⟨raceKey, raceIv, .start⟩]
    ⟨some raceWrapped, [⟨raceKey, raceIv, .done (.ok raceKey)⟩]⟩
    henv ?_ ?_ (by simp) ?_ ?_
  · intro c hc
    rw [List.mem_singleton] at hc
    rw [hc]
  · intro c hc
    rw [List.mem_singleton] at hc
    rw [hc]
    rfl
  · exact Relation.ReflTransGen.tail
      (Relation.ReflTransGen.single (h1 ▸ SysStep.mk 0 _))
      (h2 ▸ SysStep.mk 0 _)
  · intro c hc
    rw [List.mem_singleton] at hc
    rw [hc]
    exact ⟨.ok raceKey, rfl⟩

end Recall
